import Mathlib

/-!
Verification of the pipeline-parser backend (src/main.py).

The data model mirrors the pydantic models `Node`, `Edge`, `Pipeline` and
`PipelineResponse`.  Node metadata (`position : Dict[str, float]`,
`data : Dict[str, Any]`) is opaque to the core, so those fields are
represented by arbitrary type parameters `Pos` and `Payload`.

The core check `is_directed_acyclic_graph` builds a directed graph whose
vertex set is the declared node ids together with every edge endpoint and
whose arcs are the (source, target) pairs, then asks networkx whether the
graph is acyclic.  The library call is embedded as Kahn's algorithm
(`kahnAux`): repeatedly remove a vertex with no incoming remaining arc; the
graph is acyclic iff every vertex gets removed.  A separate relational
predicate `hasCycle` (existence of a non-empty directed walk from a vertex
back to itself) states what "contains a directed cycle" means, and the two
are proved equivalent.
-/

/-- Mirror of the pydantic `Node` model: `id`, `type`, `position`, `data`.
`Pos` and `Payload` stand for the JSON payloads `Dict[str, float]` and
`Dict[str, Any]`, which the core never inspects. -/
structure Node (Pos Payload : Type) where
  id : String
  type : String
  position : Pos
  data : Payload

/-- Mirror of the pydantic `Edge` model: `id`, `source`, `target` and the
optional `sourceHandle` / `targetHandle` (default `None`). -/
structure Edge where
  id : String
  source : String
  target : String
  sourceHandle : Option String := none
  targetHandle : Option String := none
deriving DecidableEq

/-- Mirror of the pydantic `Pipeline` model: the request body. -/
structure Pipeline (Pos Payload : Type) where
  nodes : List (Node Pos Payload)
  edges : List Edge

/-- Mirror of the pydantic `PipelineResponse` model: the response body. -/
structure PipelineResponse where
  num_nodes : Nat
  num_edges : Nat
  is_dag : Bool
deriving DecidableEq

/-- The (source, target) pairs of the edge list: the arcs handed to
`G.add_edge(edge.source, edge.target)` on line 51 of src/main.py. -/
def edgePairs (edges : List Edge) : List (String × String) :=
  edges.map fun e => (e.source, e.target)

/-- The vertex set of the networkx `DiGraph`: every declared node id
(line 48, `G.add_node(node.id)`) plus every endpoint of every arc
(`add_edge` inserts missing endpoints), without duplicates. -/
def graphVertices (nodeIds : List String) (pairs : List (String × String)) : List String :=
  (nodeIds ++ pairs.flatMap fun p => [p.1, p.2]).dedup

/-- One pass of Kahn's algorithm, the standard decision procedure behind
`nx.is_directed_acyclic_graph`: pick a vertex of `V` with no incoming arc in
`E`, delete it and its outgoing arcs, and repeat; report `true` iff `V` is
exhausted.  `fuel` bounds the recursion; `V.length` is always enough. -/
def kahnAux : Nat → List String → List (String × String) → Bool
  | 0, V, _ => V.isEmpty
  | fuel + 1, V, E =>
    match V.find? (fun v => E.all fun e => e.2 != v) with
    | none => V.isEmpty
    | some v => kahnAux fuel (V.erase v) (E.filter fun e => e.1 != v)

/-- `nx.is_directed_acyclic_graph` on the graph with vertices
`graphVertices nodeIds pairs` and arcs `pairs`. -/
def checkDag (nodeIds : List String) (pairs : List (String × String)) : Bool :=
  kahnAux (graphVertices nodeIds pairs).length (graphVertices nodeIds pairs) pairs

/-- Embedding of `is_directed_acyclic_graph` (src/main.py lines 40-53):
an empty edge list short-circuits to `True`; otherwise the graph is built
from the declared node ids and the edge pairs and tested for acyclicity. -/
def is_directed_acyclic_graph {Pos Payload : Type}
    (nodes : List (Node Pos Payload)) (edges : List Edge) : Bool :=
  if edges.isEmpty then true
  else checkDag (nodes.map Node.id) (edgePairs edges)

/-- Embedding of the `/pipelines/parse` handler (src/main.py lines 63-83):
`num_nodes = len(pipeline.nodes)`, `num_edges = len(pipeline.edges)`,
`is_dag = is_directed_acyclic_graph(...)`.  The `try/except` that converts a
raised exception into an HTTP 400 is modelled by the `Except.error` branch;
every computation in the body is total, so the handler always returns
`Except.ok`. -/
def parse_pipeline {Pos Payload : Type} (pipeline : Pipeline Pos Payload) :
    Except String PipelineResponse :=
  Except.ok
    { num_nodes := pipeline.nodes.length
      num_edges := pipeline.edges.length
      is_dag := is_directed_acyclic_graph pipeline.nodes pipeline.edges }

/-- A non-empty directed walk from `a` to `b` along arcs of `E`. -/
inductive Reaches (E : List (String × String)) : String → String → Prop
  | single {a b : String} : (a, b) ∈ E → Reaches E a b
  | head {a b c : String} : (a, b) ∈ E → Reaches E b c → Reaches E a c

/-- The directed graph with arc list `E` contains a directed cycle: some
vertex has a non-empty walk back to itself.  (A cycle only traverses arcs,
so isolated vertices are irrelevant to its existence.) -/
def hasCycle (E : List (String × String)) : Prop :=
  ∃ v, Reaches E v v

/-! Concrete fixtures used by the spec's scenarios and by witnesses. -/

/-- Declared node with id "A" and no interesting metadata. -/
def nodeA : Node Unit Unit := { id := "A", type := "customInput", position := (), data := () }

/-- Declared node with id "B". -/
def nodeB : Node Unit Unit := { id := "B", type := "llm", position := (), data := () }

/-- Declared node with id "C". -/
def nodeC : Node Unit Unit := { id := "C", type := "customOutput", position := (), data := () }

/-- A second declaration of id "A" (different type tag, same identifier). -/
def nodeA2 : Node Unit Unit := { id := "A", type := "text", position := (), data := () }

/-- Node with id "A" carrying rich metadata: a 2D position and a payload. -/
def nodeRichA : Node (Int × Int) String :=
  { id := "A", type := "customInput", position := (3, 4), data := "payload" }

/-- Node with id "B" carrying rich metadata. -/
def nodeRichB : Node (Int × Int) String :=
  { id := "B", type := "llm", position := (7, 1), data := "other" }

/-- Edge A → B. -/
def edgeAB : Edge := { id := "e1", source := "A", target := "B" }

/-- Edge B → C. -/
def edgeBC : Edge := { id := "e2", source := "B", target := "C" }

/-- Edge C → A. -/
def edgeCA : Edge := { id := "e3", source := "C", target := "A" }

/-- Self-loop edge A → A. -/
def edgeAA : Edge := { id := "e4", source := "A", target := "A" }

/-- Edge A → X whose target "X" is never declared as a node. -/
def edgeAX : Edge := { id := "e5", source := "A", target := "X" }

/-- A second A → B edge with a different edge id and explicit handles. -/
def edgeAB2 : Edge :=
  { id := "e6", source := "A", target := "B",
    sourceHandle := some "out", targetHandle := some "in" }

/-- The node count the spec claims for a pipeline: the number of DISTINCT
identifiers among the declared nodes.  Stated from the spec's words, to be
compared with what `parse_pipeline` actually returns. -/
def specNodeCount {Pos Payload : Type} (p : Pipeline Pos Payload) : Nat :=
  (p.nodes.map Node.id).dedup.length

theorem Reaches.mono {E1 E2 : List (String × String)} (hsub : ∀ x ∈ E1, x ∈ E2)
    {a b : String} (h : Reaches E1 a b) : Reaches E2 a b := by
  induction h with
  | single hab => exact .single (hsub _ hab)
  | head hab _ ih => exact .head (hsub _ hab) ih

theorem Reaches.exists_target {E : List (String × String)} {a b : String}
    (h : Reaches E a b) : ∃ e ∈ E, e.2 = b := by
  induction h with
  | single hab => exact ⟨_, hab, rfl⟩
  | head _ _ ih => exact ih

theorem Reaches.filter_of_no_target {E : List (String × String)} {v : String}
    (hnt : ∀ e ∈ E, e.2 ≠ v) {a b : String} (h : Reaches E a b) :
    a ≠ v → Reaches (E.filter fun e => e.1 != v) a b := by
  induction h with
  | single hab =>
    intro ha
    exact .single (List.mem_filter.mpr ⟨hab, by simpa [bne_iff_ne] using ha⟩)
  | head hab hbc ih =>
    intro ha
    have hb := hnt _ hab
    exact .head (List.mem_filter.mpr ⟨hab, by simpa [bne_iff_ne] using ha⟩) (ih hb)

theorem cycle_of_all_have_pred (V : List String) (E : List (String × String))
    (hne : V ≠ []) (hpred : ∀ v ∈ V, ∃ u, (u, v) ∈ E ∧ u ∈ V) : hasCycle E := by
  classical
  let f : String → String := fun v =>
    if h : ∃ u, (u, v) ∈ E ∧ u ∈ V then h.choose else v
  have hf : ∀ v ∈ V, (f v, v) ∈ E ∧ f v ∈ V := by
    intro v hv
    have h : ∃ u, (u, v) ∈ E ∧ u ∈ V := hpred v hv
    simpa only [f, dif_pos h] using h.choose_spec
  have hiter : ∀ k, ∀ v ∈ V, f^[k] v ∈ V := by
    intro k
    induction k with
    | zero => intro v hv; simpa using hv
    | succ n ih =>
      intro v hv
      rw [Function.iterate_succ_apply']
      exact (hf _ (ih v hv)).2
  have hreach : ∀ k, 0 < k → ∀ v ∈ V, Reaches E (f^[k] v) v := by
    intro k
    induction k with
    | zero => omega
    | succ n ih =>
      intro _ v hv
      rcases Nat.eq_zero_or_pos n with hn | hn
      · subst hn
        simpa using Reaches.single (hf v hv).1
      · rw [Function.iterate_succ_apply']
        exact Reaches.head (hf _ (hiter n v hv)).1 (ih hn v hv)
  obtain ⟨x0, hx0⟩ := List.exists_mem_of_ne_nil V hne
  have hcard : V.toFinset.card < (Finset.range (V.length + 1)).card := by
    rw [Finset.card_range]
    exact Nat.lt_succ_of_le V.toFinset_card_le
  have hmaps : ∀ i ∈ Finset.range (V.length + 1), f^[i] x0 ∈ V.toFinset := by
    intro i _
    rw [List.mem_toFinset]
    exact hiter i x0 hx0
  obtain ⟨i, _, j, _, hij, heq⟩ :=
    Finset.exists_ne_map_eq_of_card_lt_of_maps_to hcard hmaps
  have key : ∀ i j : Nat, i < j → f^[i] x0 = f^[j] x0 → hasCycle E := by
    intro i j hlt heq
    have hy : f^[i] x0 ∈ V := hiter i x0 hx0
    have hji : j - i + i = j := Nat.sub_add_cancel (Nat.le_of_lt hlt)
    have h1 : f^[j - i] (f^[i] x0) = f^[i] x0 := by
      rw [← Function.iterate_add_apply, hji, ← heq]
    have h2 := hreach (j - i) (Nat.sub_pos_of_lt hlt) (f^[i] x0) hy
    rw [h1] at h2
    exact ⟨_, h2⟩
  rcases Nat.lt_or_ge i j with hlt | hge
  · exact key i j hlt heq
  · exact key j i (Nat.lt_of_le_of_ne hge (Ne.symm hij)) heq.symm

theorem not_hasCycle_of_kahnAux (fuel : Nat) :
    ∀ (V : List String) (E : List (String × String)),
      (∀ e ∈ E, e.2 ∈ V) → kahnAux fuel V E = true → ¬ hasCycle E := by
  induction fuel with
  | zero =>
    intro V E hT h hcyc
    have hV : V = [] := List.isEmpty_iff.mp (by simpa [kahnAux] using h)
    obtain ⟨w, hw⟩ := hcyc
    obtain ⟨e, he, _⟩ := hw.exists_target
    have := hT e he
    simp [hV] at this
  | succ n ih =>
    intro V E hT h hcyc
    simp only [kahnAux] at h
    split at h
    next hfind =>
      have hV : V = [] := List.isEmpty_iff.mp h
      obtain ⟨w, hw⟩ := hcyc
      obtain ⟨e, he, _⟩ := hw.exists_target
      have := hT e he
      simp [hV] at this
    next v hfind =>
      have hvp := List.find?_some hfind
      have hnt : ∀ e ∈ E, e.2 ≠ v := by
        intro e he
        have := List.all_eq_true.mp hvp e he
        simpa [bne_iff_ne] using this
      have hT' : ∀ e ∈ E.filter (fun e => e.1 != v), e.2 ∈ V.erase v := by
        intro e he'
        have heE : e ∈ E := List.mem_of_mem_filter he'
        exact (List.mem_erase_of_ne (hnt e heE)).mpr (hT e heE)
      obtain ⟨w, hw⟩ := hcyc
      obtain ⟨elast, helast, hlastw⟩ := hw.exists_target
      have hwv : w ≠ v := fun hwveq => hnt elast helast (hlastw.trans hwveq)
      exact ih (V.erase v) _ hT' h ⟨w, hw.filter_of_no_target hnt hwv⟩

theorem kahnAux_of_not_hasCycle (fuel : Nat) :
    ∀ (V : List String) (E : List (String × String)),
      V.length ≤ fuel → (∀ e ∈ E, e.1 ∈ V ∧ e.2 ∈ V) → ¬ hasCycle E →
      kahnAux fuel V E = true := by
  induction fuel with
  | zero =>
    intro V E hlen _ _
    have hV : V = [] := List.eq_nil_of_length_eq_zero (Nat.le_zero.mp hlen)
    simp [kahnAux, hV]
  | succ n ih =>
    intro V E hlen hVE hnc
    by_cases hV : V = []
    · simp [kahnAux, hV]
    · have hex : ∃ v ∈ V, (E.all fun e => e.2 != v) = true := by
        by_contra hcon
        push_neg at hcon
        apply hnc
        apply cycle_of_all_have_pred V E hV
        intro v hv
        have hAll := hcon v hv
        have : ∃ e ∈ E, e.2 = v := by
          by_contra hno
          push_neg at hno
          apply hAll
          rw [List.all_eq_true]
          intro e he
          simpa [bne_iff_ne] using hno e he
        obtain ⟨e, he, hev⟩ := this
        refine ⟨e.1, ?_, (hVE e he).1⟩
        rw [← hev, Prod.mk.eta]
        exact he
      obtain ⟨v, hvV, hvp⟩ := hex
      have hsome : (V.find? fun u => E.all fun e => e.2 != u).isSome := by
        rw [List.find?_isSome]
        exact ⟨v, hvV, hvp⟩
      obtain ⟨w, hw⟩ := Option.isSome_iff_exists.mp hsome
      simp only [kahnAux, hw]
      have hwV : w ∈ V := List.mem_of_find?_eq_some hw
      have hwp := List.find?_some hw
      have hnt : ∀ e ∈ E, e.2 ≠ w := by
        intro e he
        have := List.all_eq_true.mp hwp e he
        simpa [bne_iff_ne] using this
      apply ih
      · rw [List.length_erase_of_mem hwV]
        have : 1 ≤ V.length := List.length_pos.mpr hV
        omega
      · intro e he'
        have heE : e ∈ E := List.mem_of_mem_filter he'
        have h1 : e.1 ≠ w := by
          have := List.of_mem_filter he'
          simpa [bne_iff_ne] using this
        exact ⟨(List.mem_erase_of_ne h1).mpr (hVE e heE).1,
               (List.mem_erase_of_ne (hnt e heE)).mpr (hVE e heE).2⟩
      · intro hc
        apply hnc
        obtain ⟨u, hu⟩ := hc
        exact ⟨u, hu.mono fun x hx => List.mem_of_mem_filter hx⟩

theorem mem_graphVertices_of_mem {nodeIds : List String}
    {pairs : List (String × String)} {e : String × String} (he : e ∈ pairs) :
    e.1 ∈ graphVertices nodeIds pairs ∧ e.2 ∈ graphVertices nodeIds pairs := by
  unfold graphVertices
  constructor <;>
  · rw [List.mem_dedup, List.mem_append]
    right
    rw [List.mem_flatMap]
    exact ⟨e, he, by simp⟩

theorem checkDag_eq_true_iff (nodeIds : List String) (pairs : List (String × String)) :
    checkDag nodeIds pairs = true ↔ ¬ hasCycle pairs := by
  constructor
  · intro h
    exact not_hasCycle_of_kahnAux _ _ _
      (fun e he => (mem_graphVertices_of_mem he).2) h
  · intro h
    exact kahnAux_of_not_hasCycle _ _ _ le_rfl
      (fun e he => mem_graphVertices_of_mem he) h

theorem hasCycle_nil : ¬ hasCycle ([] : List (String × String)) := by
  rintro ⟨v, hv⟩
  obtain ⟨e, he, _⟩ := hv.exists_target
  simp at he

theorem is_dag_eq_true_iff {Pos Payload : Type}
    (nodes : List (Node Pos Payload)) (edges : List Edge) :
    is_directed_acyclic_graph nodes edges = true ↔ ¬ hasCycle (edgePairs edges) := by
  unfold is_directed_acyclic_graph
  by_cases h : edges.isEmpty
  · have hnil : edges = [] := List.isEmpty_iff.mp h
    subst hnil
    simpa [edgePairs] using hasCycle_nil
  · simp [h, checkDag_eq_true_iff]

/-! Helper lemmas shared by several claims. -/

theorem bool_eq_of_true_iff {a b : Bool} (h : (a = true) ↔ (b = true)) : a = b := by
  cases a <;> cases b <;> simp_all

theorem hasCycle_of_mem_iff {E1 E2 : List (String × String)}
    (h : ∀ x, x ∈ E1 ↔ x ∈ E2) : hasCycle E1 ↔ hasCycle E2 :=
  ⟨fun ⟨v, hv⟩ => ⟨v, hv.mono fun x hx => (h x).mp hx⟩,
   fun ⟨v, hv⟩ => ⟨v, hv.mono fun x hx => (h x).mpr hx⟩⟩

/-! The claims. -/

/-- C1 (counterexample): the handler returns `num_nodes = len(pipeline.nodes)`,
so two declarations of the same identifier "A" yield `num_nodes = 2`, while
the number of distinct declared identifiers is 1. -/
theorem num_nodes_counts_duplicates_cex :
    (parse_pipeline { nodes := [nodeA, nodeA2], edges := [] }).map PipelineResponse.num_nodes
      = Except.ok 2
    ∧ specNodeCount { nodes := [nodeA, nodeA2], edges := ([] : List Edge) } = 1
    ∧ (2 : Nat) ≠ 1 :=
  ⟨rfl, rfl, by decide⟩

/-- C1 (amended): `num_nodes` equals the length of the declared node list,
counting duplicate identifiers each time they are declared; edge-only
endpoints are still not counted. -/
theorem num_nodes_eq_declared_length {Pos Payload : Type} (p : Pipeline Pos Payload) :
    (parse_pipeline p).map PipelineResponse.num_nodes = Except.ok p.nodes.length := rfl

/-- C2: `is_dag` is `true` iff the directed graph whose arcs are the supplied
(source, target) pairs has no directed cycle (a cycle only traverses arcs, so
the declared-node vertices beyond the arc endpoints cannot affect existence
of a cycle); and the six concrete scenarios of the spec all hold. -/
theorem is_dag_iff_no_directed_cycle :
    (∀ (Pos Payload : Type) (nodes : List (Node Pos Payload)) (edges : List Edge),
        is_directed_acyclic_graph nodes edges = true ↔ ¬ hasCycle (edgePairs edges))
    ∧ parse_pipeline { nodes := [nodeA, nodeB, nodeC], edges := [edgeAB, edgeBC] }
        = Except.ok { num_nodes := 3, num_edges := 2, is_dag := true }
    ∧ parse_pipeline { nodes := [nodeA, nodeB, nodeC], edges := [edgeAB, edgeBC, edgeCA] }
        = Except.ok { num_nodes := 3, num_edges := 3, is_dag := false }
    ∧ parse_pipeline ({ nodes := [], edges := [] } : Pipeline Unit Unit)
        = Except.ok { num_nodes := 0, num_edges := 0, is_dag := true }
    ∧ parse_pipeline { nodes := [nodeA], edges := [edgeAA] }
        = Except.ok { num_nodes := 1, num_edges := 1, is_dag := false }
    ∧ parse_pipeline { nodes := [nodeA, nodeB], edges := [edgeAB, edgeAB] }
        = Except.ok { num_nodes := 2, num_edges := 2, is_dag := true }
    ∧ parse_pipeline { nodes := [nodeA], edges := [edgeAX] }
        = Except.ok { num_nodes := 1, num_edges := 1, is_dag := true } :=
  ⟨fun _ _ nodes edges => is_dag_eq_true_iff nodes edges, rfl, rfl, rfl, rfl, rfl, rfl⟩

/-- C3: `num_edges` is the literal length of the supplied edge list,
duplicates included. -/
theorem num_edges_eq_supplied_length {Pos Payload : Type} (p : Pipeline Pos Payload) :
    (parse_pipeline p).map PipelineResponse.num_edges = Except.ok p.edges.length := rfl

/-- C4: the core is total — for every well-typed pipeline, the handler
returns a result (`Except.ok`) and never reaches the error branch. -/
theorem parse_pipeline_total {Pos Payload : Type} (p : Pipeline Pos Payload) :
    ∃ r : PipelineResponse, parse_pipeline p = Except.ok r := ⟨_, rfl⟩

/-- C5: the response depends only on the declared node ids and the
(source, target) pairs; node metadata (type, position, payload — even its
type) and edge ids/handles are ignored. -/
theorem core_ignores_metadata {Pos1 Payload1 Pos2 Payload2 : Type}
    (p1 : Pipeline Pos1 Payload1) (p2 : Pipeline Pos2 Payload2)
    (hn : p1.nodes.map Node.id = p2.nodes.map Node.id)
    (he : edgePairs p1.edges = edgePairs p2.edges) :
    parse_pipeline p1 = parse_pipeline p2 := by
  have hlenn : p1.nodes.length = p2.nodes.length := by
    have := congrArg List.length hn
    simpa using this
  have hlene : p1.edges.length = p2.edges.length := by
    have := congrArg List.length he
    simpa [edgePairs] using this
  have hempty : p1.edges.isEmpty = p2.edges.isEmpty :=
    bool_eq_of_true_iff
      (by rw [List.isEmpty_iff_length_eq_zero, List.isEmpty_iff_length_eq_zero, hlene])
  have hdag : is_directed_acyclic_graph p1.nodes p1.edges
      = is_directed_acyclic_graph p2.nodes p2.edges := by
    unfold is_directed_acyclic_graph
    rw [hempty, hn, he]
  simp [parse_pipeline, hlenn, hlene, hdag]

/-- C5 witness: a pipeline with rich metadata (integer positions, string
payloads, edge handles) gets the same response as its bare-metadata
counterpart. -/
theorem core_ignores_metadata_witness :
    ([nodeRichA, nodeRichB].map Node.id = [nodeA, nodeB].map Node.id)
    ∧ (edgePairs [edgeAB2] = edgePairs [edgeAB])
    ∧ parse_pipeline { nodes := [nodeRichA, nodeRichB], edges := [edgeAB2] }
      = parse_pipeline { nodes := [nodeA, nodeB], edges := [edgeAB] } :=
  ⟨rfl, rfl, core_ignores_metadata _ _ rfl rfl⟩

/-- C6: an empty edge list short-circuits the check to `true` for every
node list. -/
theorem empty_edges_acyclic {Pos Payload : Type} (nodes : List (Node Pos Payload)) :
    is_directed_acyclic_graph nodes [] = true := rfl

/-- C7: a self-loop edge (source = target) makes the verdict `false`. -/
theorem self_loop_not_acyclic {Pos Payload : Type} (nodes : List (Node Pos Payload))
    (edges : List Edge) (h : ∃ e ∈ edges, e.source = e.target) :
    is_directed_acyclic_graph nodes edges = false := by
  obtain ⟨e, he, hst⟩ := h
  have hcyc : hasCycle (edgePairs edges) := by
    refine ⟨e.source, Reaches.single ?_⟩
    have hmem : (e.source, e.target) ∈ edgePairs edges := List.mem_map_of_mem _ he
    rw [← hst] at hmem
    exact hmem
  cases hb : is_directed_acyclic_graph nodes edges
  · rfl
  · exact absurd hcyc ((is_dag_eq_true_iff nodes edges).mp hb)

/-- C7 witness: the pipeline with one node "A" and the self-loop A → A is
reported cyclic. -/
theorem self_loop_not_acyclic_witness :
    (∃ e ∈ [edgeAA], e.source = e.target)
    ∧ is_directed_acyclic_graph [nodeA] [edgeAA] = false :=
  ⟨⟨edgeAA, by simp, rfl⟩, self_loop_not_acyclic [nodeA] [edgeAA] ⟨edgeAA, by simp, rfl⟩⟩

/-- C8: appending a copy of a (source, target) pair already present leaves
the verdict unchanged, while `edgeCount` grows by one. -/
theorem duplicate_edge_preserves_verdict {Pos Payload : Type}
    (nodes : List (Node Pos Payload)) (edges : List Edge) (e : Edge)
    (h : (e.source, e.target) ∈ edgePairs edges) :
    is_directed_acyclic_graph nodes (edges ++ [e]) = is_directed_acyclic_graph nodes edges
    ∧ (edges ++ [e]).length = edges.length + 1 := by
  refine ⟨?_, by simp⟩
  have hne : edges ≠ [] := by
    intro h0
    rw [h0] at h
    simp [edgePairs] at h
  obtain ⟨a, l, rfl⟩ := List.exists_cons_of_ne_nil hne
  have hmem : ∀ x, x ∈ edgePairs ((a :: l) ++ [e]) ↔ x ∈ edgePairs (a :: l) := by
    intro x
    simp only [edgePairs] at h ⊢
    simp only [List.map_append, List.mem_append, List.map_cons, List.map_nil,
      List.mem_singleton]
    constructor
    · rintro (hx | hx)
      · exact hx
      · rw [hx]
        exact h
    · exact Or.inl
  show checkDag ((nodes.map Node.id)) (edgePairs ((a :: l) ++ [e]))
      = checkDag ((nodes.map Node.id)) (edgePairs (a :: l))
  apply bool_eq_of_true_iff
  rw [checkDag_eq_true_iff, checkDag_eq_true_iff]
  exact not_congr (hasCycle_of_mem_iff hmem)

/-- C8 witness: duplicating the A → B edge (under a fresh edge id and
handles) leaves the verdict `true` and raises the count from 1 to 2. -/
theorem duplicate_edge_preserves_verdict_witness :
    ((edgeAB2.source, edgeAB2.target) ∈ edgePairs [edgeAB])
    ∧ (is_directed_acyclic_graph [nodeA, nodeB] ([edgeAB] ++ [edgeAB2])
        = is_directed_acyclic_graph [nodeA, nodeB] [edgeAB]
      ∧ ([edgeAB] ++ [edgeAB2]).length = [edgeAB].length + 1) :=
  ⟨by decide,
   duplicate_edge_preserves_verdict [nodeA, nodeB] [edgeAB] edgeAB2 (by decide)⟩

/-- C9: permuting the edge list changes neither the verdict nor the counts:
the whole response is unchanged. -/
theorem edge_permutation_invariant {Pos Payload : Type}
    (nodes : List (Node Pos Payload)) (edges1 edges2 : List Edge)
    (hperm : edges1.Perm edges2) :
    parse_pipeline { nodes := nodes, edges := edges1 }
      = parse_pipeline { nodes := nodes, edges := edges2 } := by
  have hlen : edges1.length = edges2.length := hperm.length_eq
  have hmem : ∀ x, x ∈ edgePairs edges1 ↔ x ∈ edgePairs edges2 := by
    intro x
    simp only [edgePairs]
    exact (hperm.map _).mem_iff
  have hempty : edges1.isEmpty = edges2.isEmpty :=
    bool_eq_of_true_iff
      (by rw [List.isEmpty_iff_length_eq_zero, List.isEmpty_iff_length_eq_zero, hlen])
  have hdag : is_directed_acyclic_graph nodes edges1
      = is_directed_acyclic_graph nodes edges2 := by
    unfold is_directed_acyclic_graph
    rw [hempty]
    cases h2 : edges2.isEmpty
    · show checkDag (List.map Node.id nodes) (edgePairs edges1)
          = checkDag (List.map Node.id nodes) (edgePairs edges2)
      apply bool_eq_of_true_iff
      rw [checkDag_eq_true_iff, checkDag_eq_true_iff]
      exact not_congr (hasCycle_of_mem_iff hmem)
    · rfl
  simp [parse_pipeline, hlen, hdag]

/-- C9 witness: swapping the two edges A → B and B → C leaves the response
unchanged. -/
theorem edge_permutation_invariant_witness :
    (([edgeAB, edgeBC] : List Edge).Perm [edgeBC, edgeAB])
    ∧ parse_pipeline { nodes := [nodeA, nodeB, nodeC], edges := [edgeAB, edgeBC] }
      = parse_pipeline { nodes := [nodeA, nodeB, nodeC], edges := [edgeBC, edgeAB] } :=
  ⟨List.Perm.swap edgeBC edgeAB [],
   edge_permutation_invariant [nodeA, nodeB, nodeC] _ _ (List.Perm.swap edgeBC edgeAB [])⟩

/-- C10: the verdict never depends on the declared node list — declared
nodes only contribute isolated (or already induced) vertices, which cannot
lie on a directed cycle. -/
theorem is_dag_ignores_declared_nodes {Pos1 Payload1 Pos2 Payload2 : Type}
    (nodes1 : List (Node Pos1 Payload1)) (nodes2 : List (Node Pos2 Payload2))
    (edges : List Edge) :
    is_directed_acyclic_graph nodes1 edges = is_directed_acyclic_graph nodes2 edges :=
  bool_eq_of_true_iff
    ((is_dag_eq_true_iff nodes1 edges).trans (is_dag_eq_true_iff nodes2 edges).symm)
